import Mathlib

/-!
Verification of the prep-agent company-research pipeline.

Python text values are modelled as `List Char`; Python string slicing
`s[:n]` is `List.take n`, substring tests (`"x" in s`) are `pyIn`, and
`str.endswith` is `endsWithB`.  Fallible code is modelled with `Except`.
Machine floats appear in the source only inside human-readable number
formatting; they are modelled as exact integers carrying the scaled value
(e.g. hundredths), which does not affect any property proved here.
-/

namespace PrepAgent

/-- Coerce a Lean string literal to the `List Char` text model. -/
def str (s : String) : List Char := s.data

/-- `strStarts p t` holds when `p` is a prefix of `t` (Python `t.startswith(p)`). -/
def strStarts : List Char → List Char → Bool
  | [], _ => true
  | _ :: _, [] => false
  | a :: as, b :: bs => a == b && strStarts as bs

/-- Python substring test `p in t`: `p` occurs contiguously inside `t`. -/
def pyIn (p : List Char) : List Char → Bool
  | [] => strStarts p []
  | c :: rest => strStarts p (c :: rest) || pyIn p rest

/-- Python `t.endswith(s)`: the last `s.length` characters of `t` equal `s`. -/
def endsWithB (t s : List Char) : Bool :=
  t.drop (t.length - s.length) == s

/-- ASCII whitespace, the characters matched by Python `\s` / `str.strip()`. -/
def isSpace (c : Char) : Bool :=
  c == ' ' || c == '\t' || c == '\n' || c == '\r' || c == '\x0b' || c == '\x0c'

/-- Python `str.strip()`. -/
def pyStrip (t : List Char) : List Char :=
  ((t.dropWhile isSpace).reverse.dropWhile isSpace).reverse

/-- Split at the first occurrence of `sep` (Python `t.split(sep, 1)` when `sep in t`). -/
def splitFirst (sep : Char) : List Char → Option (List Char × List Char)
  | [] => none
  | c :: rest =>
    if c == sep then some ([], rest)
    else (splitFirst sep rest).map (fun p => (c :: p.1, p.2))

/-- ASCII decimal digit test (Python `str.isdigit` on ASCII text). -/
def isDigitB (c : Char) : Bool := 48 ≤ c.toNat && c.toNat ≤ 57

/-- Python `str.isdigit`: nonempty and all digits. -/
def isDigits (t : List Char) : Bool := !t.isEmpty && t.all isDigitB

/-- Numeric value of a digit string. -/
def toNatDigits (t : List Char) : Nat :=
  t.foldl (fun n c => n * 10 + (c.toNat - 48)) 0

/-- Decimal rendering of a natural number (Python `str(n)` / `f"{n}"`). -/
def natDec (n : Nat) : List Char := Nat.toDigits 10 n

/-- Lowercase a text (Python `str.lower`, ASCII). -/
def lowerText (t : List Char) : List Char := t.map Char.toLower

-- ===== Context Aggregator (src/advanced_crawler.py lines 689-704, src/app.py lines 364-379) =====

/-- One crawled page as stored by `crawl_internal_pages`: the dict
`{'url': url, 'text': text}` where `url` may be Python `None`. -/
structure PageText where
  url : Option (List Char)
  text : List Char
deriving DecidableEq

/-- A news item dict as consumed by `aggregate_company_content`. -/
structure NewsItem where
  title : List Char
  description : List Char
  url : List Char
  source : List Char
deriving DecidableEq

/-- A leadership dict `{"name": ..., "role": ...}`. -/
structure LeadershipEntry where
  name : List Char
  role : List Char
deriving DecidableEq

/-- Rendering of a `PageText.url` inside an f-string (Python prints `None`). -/
def renderUrl : Option (List Char) → List Char
  | some u => u
  | none => str "None"

/-- `aggregate_company_content` (src/advanced_crawler.py lines 689-704):
concatenates the section texts in source order and truncates to 12000. -/
def aggregate_company_content (companyName website : List Char)
    (internalTexts : List PageText) (pdfTexts : List (List Char))
    (news : List NewsItem) (leadership : List LeadershipEntry) : List Char :=
  let content := str "Company: " ++ companyName ++ str "\nWebsite: " ++ website ++ str "\n\n"
  let content := content ++ str "=== Internal Pages ===\n"
  let content := internalTexts.foldl
    (fun acc page => acc ++ str "\n--- " ++ renderUrl page.url ++ str " ---\n" ++ page.text ++ str "\n") content
  let content := content ++ str "\n=== PDF Documents ===\n"
  let content := pdfTexts.foldl (fun acc pdf => acc ++ str "\n" ++ pdf ++ str "\n") content
  let content := content ++ str "\n=== Latest News ===\n"
  let content := news.foldl
    (fun acc n => acc ++ str "\n- " ++ n.title ++ str " (" ++ n.source ++ str "): "
      ++ n.description ++ str " [" ++ n.url ++ str "]\n") content
  let content := content ++ str "\n=== Leadership ===\n"
  let content := leadership.foldl
    (fun acc l => acc ++ str "- " ++ l.name ++ str ": " ++ l.role ++ str "\n") content
  content.take 12000

/-- The interactive Q&A context built in `slack_ask` (src/app.py lines 364-379):
the stored context, optionally extended with the freshly crawled fallback
context when that crawl returned a truthy string, truncated to 8000. -/
def slack_ask_context (storedContext : List Char) (fallbackContext : Option (List Char)) : List Char :=
  let fc := match fallbackContext with
    | some f => if f ≠ [] then storedContext ++ str "\n\nAdditional Context:\n" ++ f else storedContext
    | none => storedContext
  fc.take 8000

-- ===== Site Crawler (src/advanced_crawler.py lines 48-72, 81-88) =====

/-- One page object produced by the crawl backend (`crawl4ai`), after the
source's `getattr(page, 'url', None)` and `getattr(page, 'text', '') or ""`
normalisations. -/
structure CrawledPage where
  url : Option (List Char)
  text : List Char
deriving DecidableEq

/-- The backend result object: `contentPages` models
`getattr(results, 'content', None) or getattr(results, 'data', None)` and
`markdown` models `getattr(results, 'markdown', '')`. -/
structure CrawlResults where
  contentPages : Option (List CrawledPage)
  markdown : List Char
deriving DecidableEq

/-- Loop body of `crawl_internal_pages` (lines 57-63): keep the page when its
text is truthy, and append the text to `pdf_texts` when the url is truthy and
ends (lowercased) in `.pdf`.  The page text is stored unmodified. -/
def crawlStep (acc : List PageText × List (List Char)) (page : CrawledPage) :
    List PageText × List (List Char) :=
  let texts := if page.text ≠ [] then acc.1 ++ [⟨page.url, page.text⟩] else acc.1
  let pdfs := match page.url with
    | some u => if u ≠ [] ∧ endsWithB (lowerText u) (str ".pdf") = true then acc.2 ++ [page.text] else acc.2
    | none => acc.2
  (texts, pdfs)

/-- Body of the inner `crawl()` coroutine once the backend has produced a
result object (lines 53-71): iterate the pages when `pages` is truthy,
otherwise fall back to the single markdown text. -/
def crawl_process (baseUrl : List Char) (results : CrawlResults) :
    List PageText × List (List Char) :=
  match results.contentPages with
  | some (p :: ps) => (p :: ps).foldl crawlStep ([], [])
  | _ =>
    if results.markdown ≠ [] then ([⟨some baseUrl, results.markdown⟩], []) else ([], [])

/-- `crawl_internal_pages` (lines 48-72).  The function body contains no
`try`/`except`: an exception raised by the crawl backend (`AsyncWebCrawler`
/ `arun`) propagates through `asyncio.run` to the caller, so the backend
outcome is modelled as `Except` and errors pass through. -/
def crawl_internal_pages (baseUrl : List Char)
    (backend : Except (List Char) CrawlResults) :
    Except (List Char) (List PageText × List (List Char)) :=
  match backend with
  | .error e => .error e
  | .ok results => .ok (crawl_process baseUrl results)

/-- One `re.sub(r"\n\s*\n", "\n\n", text)` pass (line 87): at each newline
whose following maximal whitespace run contains another newline, the regex
match extends (greedily, with backtracking) to the last newline of the run
and is replaced by two newlines; scanning resumes after the match. -/
def collapseBlankLines : List Char → List Char
  | [] => []
  | c :: rest =>
    if c == '\n' then
      let run := rest.takeWhile isSpace
      let tail := rest.drop run.length
      if run.contains '\n' then
        let afterLast := (run.reverse.takeWhile (fun d => d ≠ '\n')).reverse
        '\n' :: '\n' :: collapseBlankLines (afterLast ++ tail)
      else c :: collapseBlankLines rest
    else c :: collapseBlankLines rest
termination_by l => l.length
decreasing_by
  · simp only [List.length_append, List.length_reverse, List.length_drop, List.length_cons]
    have haux : ∀ (p : Char → Bool) (l : List Char), (l.takeWhile p).length ≤ l.length := by
      intro p l
      induction l with
      | nil => simp [List.takeWhile]
      | cons a as ih =>
        by_cases hp : p a
        · simp only [List.takeWhile, hp, List.length_cons]
          omega
        · simp [List.takeWhile, hp]
    have h1 : ((rest.takeWhile isSpace).reverse.takeWhile (fun d => d ≠ '\n')).length
        ≤ (rest.takeWhile isSpace).reverse.length := haux _ _
    have h2 : (rest.takeWhile isSpace).length ≤ rest.length := haux _ _
    simp only [List.length_reverse] at h1
    omega
  · simp
  · simp

/-- `extract_main_text` (src/advanced_crawler.py lines 81-88), applied to the
text obtained from the soup after boilerplate-tag removal: collapse blank
lines, then truncate to 5000 characters.  (This helper is defined in the
source but is not invoked by `crawl_internal_pages`.) -/
def extract_main_text (textFromSoup : List Char) : List Char :=
  (collapseBlankLines textFromSoup).take 5000

-- ===== Document Extractor (src/advanced_crawler.py lines 90-100) =====

/-- `PDF_MAX_PAGES` (line 21). -/
def PDF_MAX_PAGES : Nat := 10

/-- `extract_pdf_text` (lines 90-100).  The PyMuPDF parse of the byte stream
is modelled as `Except`: a parse failure hits the `except` clause and yields
the empty string; otherwise the page texts are concatenated up to
`PDF_MAX_PAGES` pages and the result truncated to 5000 characters. -/
def extract_pdf_text (parsed : Except (List Char) (List (List Char))) : List Char :=
  match parsed with
  | .error _ => []
  | .ok pages => ((pages.take PDF_MAX_PAGES).foldl (fun acc p => acc ++ p) []).take 5000

-- ===== Conversation state (src/app.py lines 83-90, 306-311, 566-579) =====

/-- Python dict assignment `d[k] = v` on an insertion-ordered association
list: an existing key keeps its position, a new key is appended. -/
def pyDictSet {V : Type} (b : List (List Char × V)) (k : List Char) (v : V) :
    List (List Char × V) :=
  if b.any (fun p => p.1 == k) then b.map (fun p => if p.1 == k then (p.1, v) else p)
  else b ++ [(k, v)]

/-- The value stored under one `channel:thread` key of `conversation_state`:
whether `qa_enabled` is truthy and whether a `data1` payload is present. -/
structure ConvEntry where
  qaEnabled : Bool
  hasData : Bool
deriving DecidableEq

/-- The process-wide `conversation_state` dict, insertion-ordered. -/
abbrev ConvState := List (List Char × ConvEntry)

/-- `cleanup_conversation_state` (src/app.py lines 84-90): when more than 10
entries are present, delete `list(keys)[:-10]`, i.e. keep the last 10
inserted entries. -/
def cleanup_conversation_state (s : ConvState) : ConvState :=
  if s.length > 10 then s.drop (s.length - 10) else s

/-- The `process_summary_task` write (src/app.py lines 566-579): store the
summary payload under `key`, then run the cleanup. -/
def process_summary_write (s : ConvState) (k : List Char) : ConvState :=
  cleanup_conversation_state (pyDictSet s k ⟨false, true⟩)

/-- The `ask_custom_question` write in `slack_interactions` (src/app.py lines
306-311): toggle `qa_enabled` on an existing entry or insert a fresh
`{"qa_enabled": True}` entry.  No cleanup is invoked on this path. -/
def ask_custom_question_write (s : ConvState) (k : List Char) : ConvState :=
  if s.any (fun p => p.1 == k) then
    s.map (fun p => if p.1 == k then (p.1, { p.2 with qaEnabled := true }) else p)
  else pyDictSet s k ⟨true, false⟩

-- ===== Market classification (src/advanced_crawler.py lines 410-412) =====

/-- The explicit single-letter exchange-suffix disjunction at line 411, in
source order. -/
def usSuffixes : List (List Char) :=
  [['.', 'N'], ['.', 'O'], ['.', 'A'], ['.', 'K'], ['.', 'M'], ['.', 'P'], ['.', 'Q'],
   ['.', 'V'], ['.', 'X'], ['.', 'Y'], ['.', 'Z'], ['.', 'B'], ['.', 'C'], ['.', 'D'],
   ['.', 'E'], ['.', 'F'], ['.', 'G'], ['.', 'H'], ['.', 'I'], ['.', 'J'], ['.', 'L'],
   ['.', 'R'], ['.', 'S'], ['.', 'T'], ['.', 'U'], ['.', 'W']]

/-- Truthiness of the resolved ticker (`None` and `""` are falsy). -/
def truthyTicker : Option (List Char) → Bool
  | some l => !l.isEmpty
  | none => false

/-- `is_us` (line 411): the ticker is truthy and either contains no dot or
ends with one of the single-letter suffixes. -/
def is_us (t : Option (List Char)) : Bool :=
  match t with
  | none => false
  | some l => !l.isEmpty && (!(l.contains '.') || usSuffixes.any (fun s => endsWithB l s))

/-- `is_india` (line 412): the ticker is truthy and ends with `.NS` or `.BO`. -/
def is_india (t : Option (List Char)) : Bool :=
  match t with
  | none => false
  | some l => !l.isEmpty && (endsWithB l (str ".NS") || endsWithB l (str ".BO"))

/-- Which provider branch `fetch_yahoo_finance_trends` enters (lines 413,
463, 488): `if is_us and ticker: ... elif is_india and ticker: ... ` and
otherwise the general (yfinance) path. -/
inductive ProviderPath where
  | us
  | india
  | general
deriving DecidableEq

/-- The branch selection of lines 413 and 463. -/
def providerPath (t : Option (List Char)) : ProviderPath :=
  if is_us t && truthyTicker t then .us
  else if is_india t && truthyTicker t then .india
  else .general

-- ===== Number formatting used by the trend statements =====

/-- Insert a thousands separator before every third digit of a digit list
given least significant first (the grouping of Python's `{:,}` format);
the counter holds the digits still to emit before the next separator. -/
def commasAux (k : Nat) : List Char → List Char
  | [] => []
  | d :: rest => if k == 0 then ',' :: d :: commasAux 2 rest else d :: commasAux (k - 1) rest

/-- Python `f"{n:,}"` for a natural number. -/
def natCommas (n : Nat) : List Char :=
  (commasAux 3 (natDec n).reverse).reverse

/-- Python `f"{v:,}"` for an integer. -/
def intCommas (v : Int) : List Char :=
  if v < 0 then '-' :: natCommas v.natAbs else natCommas v.natAbs

/-- Decimal rendering with exactly two fraction digits of a value given in
hundredths (models the `:.2f` float formats in the source; the float value
is carried as an exact integer number of hundredths). -/
def fixed2 (hundredths : Int) : List Char :=
  let sign : List Char := if hundredths < 0 then [ '-' ] else []
  let m := hundredths.natAbs
  sign ++ natDec (m / 100) ++ [ '.' ] ++ natDec (m % 100 / 10) ++ natDec (m % 10)

/-- Python `f"{v:,.2f}"`, value given in hundredths. -/
def commaFixed2 (hundredths : Int) : List Char :=
  let sign : List Char := if hundredths < 0 then [ '-' ] else []
  let m := hundredths.natAbs
  sign ++ natCommas (m / 100) ++ [ '.' ] ++ natDec (m % 100 / 10) ++ natDec (m % 10)

-- ===== Financial Data Aggregator (src/advanced_crawler.py lines 394-640) =====

/-- Provider A ticker details (`client.get_ticker_details`): the three
attributes probed with `hasattr` at lines 422-427. -/
structure PolygonDetails where
  marketCap : Option Int
  totalEmployees : Option Int
  description : Option (List Char)
deriving DecidableEq

/-- One Provider A fundamentals row carrying `fiscal_year` and the
`income_statement` fields read at lines 434-441. -/
structure PolygonFinancial where
  fiscalYear : Nat
  revenues : Option Int
  netIncome : Option Int
deriving DecidableEq

/-- Python truthiness of an optional numeric field (`None` and `0` falsy). -/
def truthyInt : Option Int → Bool
  | none => false
  | some n => !(n == 0)

/-- The trend statements built on the Provider A (US / polygon) path, lines
420-441, returned unfiltered at line 460. -/
def polygonTrendStatements (d : PolygonDetails) (fs : List PolygonFinancial) :
    List (List Char) :=
  let t : List (List Char) := []
  let t := t ++ (match d.marketCap with
    | some m => [str "Market Cap: $" ++ intCommas m]
    | none => [])
  let t := t ++ (match d.totalEmployees with
    | some e => [str "Employees: " ++ intCommas e]
    | none => [])
  let t := t ++ (match d.description with
    | some s => [str "Description: " ++ s]
    | none => [])
  fs.foldl (fun acc f =>
    acc
      ++ [if truthyInt f.revenues then
            str "Revenue " ++ natDec f.fiscalYear ++ str ": $" ++ intCommas (f.revenues.getD 0)
          else str "Revenue " ++ natDec f.fiscalYear ++ str ": N/A"]
      ++ [if truthyInt f.netIncome then
            str "Net Income " ++ natDec f.fiscalYear ++ str ": $" ++ intCommas (f.netIncome.getD 0)
          else str "Net Income " ++ natDec f.fiscalYear ++ str ": N/A"]) t

/-- The Provider B (India / alpha-vantage) statements, lines 480-484: one
`Close Price {year}: ₹{close:,.2f}` line per kept year; the close price is
carried as hundredths. -/
def indiaTrendStatements (yearCloses : List (Nat × Int)) : List (List Char) :=
  yearCloses.map (fun yc => str "Close Price " ++ natDec yc.1 ++ str ": ₹" ++ commaFixed2 yc.2)

/-- A value read from the yfinance `info` snapshot: missing (`None`), numeric
(carried as an exact integer), or an arbitrary string. -/
inductive YfVal where
  | missing
  | num (n : Int)
  | txt (s : List Char)
deriving DecidableEq

/-- The local `fmt` helper of the general path, lines 493-503.  The float
divisions `val/1e9` / `val/1e6` with `:.2f` are modelled as exact integer
scaling to hundredths (the digit values play no role in any property
proved about this path). -/
def fmt : YfVal → List Char
  | .missing => str "N/A"
  | .num n =>
    if n.natAbs > 1000000000 then str "$" ++ fixed2 (n * 100 / 1000000000) ++ str "B"
    else if n.natAbs > 1000000 then str "$" ++ fixed2 (n * 100 / 1000000) ++ str "M"
    else str "$" ++ intCommas n
  | .txt s => s

/-- The yfinance `info` fields read at lines 504-515. -/
structure YfInfo where
  marketCap : YfVal
  totalRevenue : YfVal
  netIncomeToCommon : YfVal
  trailingPE : YfVal
  forwardPE : YfVal
  priceToSales : YfVal
  priceToBook : YfVal
  evToEbitda : YfVal
  trailingEps : YfVal
  revenueGrowth : YfVal
  recommendationKey : Option (List Char)
deriving DecidableEq

/-- Python `str.capitalize`. -/
def pyCapitalize : List Char → List Char
  | [] => []
  | c :: rest => c.toUpper :: rest.map Char.toLower

/-- The raw statement list of the general (yfinance) path, lines 504-515,
before the `N/A` filter. -/
def yfTrendStatementsRaw (info : YfInfo) : List (List Char) :=
  ([str "Market Cap: " ++ fmt info.marketCap,
    str "Revenue (ttm): " ++ fmt info.totalRevenue,
    str "Net Income (ttm): " ++ fmt info.netIncomeToCommon,
    str "Trailing P/E: " ++ fmt info.trailingPE,
    str "Forward P/E: " ++ fmt info.forwardPE,
    str "Price/Sales: " ++ fmt info.priceToSales,
    str "Price/Book: " ++ fmt info.priceToBook,
    str "EV/EBITDA: " ++ fmt info.evToEbitda,
    str "EPS (TTM): " ++ fmt info.trailingEps,
    str "Revenue Growth (YoY): " ++ fmt info.revenueGrowth])
  ++ (match info.recommendationKey with
    | some k => if k ≠ [] then [str "Analyst Recommendation: " ++ pyCapitalize k] else []
    | none => [])

/-- The statements returned by the general path: line 516 filters out every
statement containing `N/A`. -/
def yfTrendStatements (info : YfInfo) : List (List Char) :=
  (yfTrendStatementsRaw info).filter (fun t => !(pyIn (str "N/A") t))

/-- One regex match of the revenue / profit / growth patterns in
`extract_financials_from_texts` (lines 588-627): `nearbyYears` is
`year_pat.findall(before+after)` — the `(20\d{2})` hits within ±20
characters — and `val` is `m.group(1).strip()`. -/
structure FinMatch where
  nearbyYears : List (List Char)
  val : List Char
deriving DecidableEq

/-- One step of the bucketing loop (lines 588-601 and its two copies): a
match is stored under its first nearby year, or under `'latest'` when no
year is nearby. -/
def bucketStep (b : List (List Char × List Char)) (m : FinMatch) :
    List (List Char × List Char) :=
  match m.nearbyYears.head? with
  | some y => pyDictSet b y m.val
  | none => pyDictSet b (str "latest") m.val

/-- The per-pattern bucket built by the extraction loop. -/
def bucketMatches (ms : List FinMatch) : List (List Char × List Char) :=
  ms.foldl bucketStep []

/-- Python string `>` comparison (lexicographic by code point). -/
def strGtB : List Char → List Char → Bool
  | [], _ => false
  | _ :: _, [] => true
  | a :: as, b :: bs => if a == b then strGtB as bs else decide (b.toNat < a.toNat)

/-- Insertion step of descending sort by Python string `>`. -/
def insertDesc (x : List Char) : List (List Char) → List (List Char)
  | [] => [x]
  | y :: ys => if strGtB x y then x :: y :: ys else y :: insertDesc x ys

/-- `sorted(keys, reverse=True)` on distinct keys. -/
def sortDesc : List (List Char) → List (List Char)
  | [] => []
  | x :: xs => insertDesc x (sortDesc xs)

/-- Python `dict.get` on the association-list model. -/
def pyGet {V : Type} (b : List (List Char × V)) (k : List Char) : Option V :=
  (b.find? (fun p => p.1 == k)).map Prod.snd

/-- The per-year result assembly of `extract_financials_from_texts` (lines
633-639): append the non-empty revenue / profit / growth entries stored for
the year `y`. -/
def finRowStep (rb pb gb : List (List Char × List Char))
    (acc : List (List Char × List Char)) (y : List Char) :
    List (List Char × List Char) :=
  let acc := match pyGet rb y with
    | some v => if v ≠ [] then acc ++ [(str "Revenue " ++ y, v)] else acc
    | none => acc
  let acc := match pyGet pb y with
    | some v => if v ≠ [] then acc ++ [(str "Net Profit " ++ y, v)] else acc
    | none => acc
  match pyGet gb y with
  | some v => if v ≠ [] then acc ++ [(str "Growth " ++ y, v)] else acc
  | none => acc

/-- `extract_financials_from_texts` (lines 574-640) given the three lists of
regex matches found over all texts: bucket each match by nearby year, keep
the 3 largest distinct keys under reverse string sort, and emit the
per-year entries present in each bucket. -/
def extract_financials (revMs profMs growMs : List FinMatch) :
    List (List Char × List Char) × List (List Char) :=
  let rb := bucketMatches revMs
  let pb := bucketMatches profMs
  let gb := bucketMatches growMs
  let years := (sortDesc ((rb.map Prod.fst ++ pb.map Prod.fst ++ gb.map Prod.fst).dedup)).take 3
  if years.isEmpty then ([], [])
  else (years.foldl (finRowStep rb pb gb) [], years)

/-- The combined distinct bucket keys of line 629:
`set(list(revenue_by_year.keys()) + list(profit_by_year.keys()) +
list(growth_by_year.keys()))`. -/
def financialKeys (revMs profMs growMs : List FinMatch) : List (List Char) :=
  ((bucketMatches revMs).map Prod.fst ++ (bucketMatches profMs).map Prod.fst
    ++ (bucketMatches growMs).map Prod.fst).dedup

/-- The statements of the regex-fallback path, line 571:
`f"{k}: {v}"` per entry of the extracted dict. -/
def fallbackTrendStatements (revMs profMs growMs : List FinMatch) : List (List Char) :=
  (extract_financials revMs profMs growMs).1.map (fun p => p.1 ++ str ": " ++ p.2)

-- ===== Leadership Resolver (src/advanced_crawler.py lines 141-235) =====

/-- The lowercase `(name, role)` key used by the dedupe step (line 186). -/
def lowerKey (e : LeadershipEntry) : List Char × List Char :=
  (lowerText e.name, lowerText e.role)

/-- The dedupe loop of `extract_leadership_from_website` (lines 183-190),
with the `seen` set carried as a list of keys. -/
def dedupeLeadershipAux (seen : List (List Char × List Char)) :
    List LeadershipEntry → List LeadershipEntry
  | [] => []
  | e :: rest =>
    if lowerKey e ∈ seen then dedupeLeadershipAux seen rest
    else e :: dedupeLeadershipAux (lowerKey e :: seen) rest

/-- Dedupe by lowercase `(name, role)` pair, first occurrence kept. -/
def dedupeLeadership (l : List LeadershipEntry) : List LeadershipEntry :=
  dedupeLeadershipAux [] l

/-- `extract_leadership_from_website` (lines 141-192) as a function of the
raw candidate entries collected from the scraped leadership pages (the
HTTP fetching and regex scanning feed this list): the function returns the
deduplicated candidates. -/
def extract_leadership_from_website (raw : List LeadershipEntry) : List LeadershipEntry :=
  dedupeLeadership raw

/-- One infobox row: the header text and the `stripped_strings` of its data
cell (empty when the row has no data cell). -/
structure InfoboxRow where
  header : List Char
  cellParts : List (List Char)
deriving DecidableEq

/-- The role keywords matched against the lowercased header (line 221). -/
def leadershipKeywords : List (List Char) :=
  [str "key people", str "ceo", str "chairman", str "founder",
   str "president", str "cfo", str "cto", str "coo"]

/-- Parsing of one cell sub-entry (lines 225-234): split on the first colon
as `role:name`, else on the first dash as `role-name`, else store the whole
part as the name with the header text as role. -/
def parseInfoboxPart (header part : List Char) : LeadershipEntry :=
  match splitFirst ':' part with
  | some rn => ⟨pyStrip rn.2, pyStrip rn.1⟩
  | none =>
    match splitFirst '-' part with
    | some rn => ⟨pyStrip rn.2, pyStrip rn.1⟩
    | none => ⟨pyStrip part, pyStrip header⟩

/-- `fetch_wikipedia_leadership` (lines 194-235) given the parsed infobox
rows: collect the parsed parts of every row whose header contains a
leadership keyword.  The source applies no deduplication on this path. -/
def fetch_wikipedia_leadership (rows : List InfoboxRow) : List LeadershipEntry :=
  rows.foldl (fun acc r =>
    if leadershipKeywords.any (fun k => pyIn k (lowerText r.header)) then
      acc ++ r.cellParts.map (parseInfoboxPart r.header)
    else acc) []

-- ===== Timeline extractor (src/summarizer.py lines 305-342) =====

/-- Parsing of one response line (lines 321-330): lines without a colon are
skipped; the text before the first colon, stripped, must be a 4-character
digit string, otherwise the line is dropped. -/
def parseTimelineLine (line : List Char) : Option (Nat × List Char) :=
  match splitFirst ':' line with
  | none => none
  | some yd =>
    let y := pyStrip yd.1
    let d := pyStrip yd.2
    if isDigits y && y.length == 4 then some (toNatDigits y, d) else none

/-- The generic fallback events (lines 333-339), in terms of the current
year. -/
def timelineFallback (nowYear : Nat) : List (Nat × List Char) :=
  [(nowYear - 2, str "Adopted digital transformation initiatives"),
   (nowYear - 1, str "Expanded into new markets"),
   (nowYear, str "Launched new product line or service")]

/-- Python string `<=` comparison (lexicographic by code point). -/
def strLeB : List Char → List Char → Bool
  | [], _ => true
  | _ :: _, [] => false
  | a :: as, b :: bs => if a == b then strLeB as bs else decide (a.toNat < b.toNat)

/-- Python tuple `<=` on `(year, description)` pairs. -/
def pairLeB (a b : Nat × List Char) : Bool :=
  if a.1 < b.1 then true else if b.1 < a.1 then false else strLeB a.2 b.2

/-- Insertion step of ascending sort by tuple order. -/
def insertAsc (x : Nat × List Char) : List (Nat × List Char) → List (Nat × List Char)
  | [] => [x]
  | y :: ys => if pairLeB x y then x :: y :: ys else y :: insertAsc x ys

/-- `events.sort()` (line 341). -/
def sortTimeline : List (Nat × List Char) → List (Nat × List Char)
  | [] => []
  | x :: xs => insertAsc x (sortTimeline xs)

/-- `extract_timeline_events` (lines 305-342) as a function of the model
response split into lines and of the current year: parse the `year: event`
lines, append generic fallback events up to the floor of 3, and sort. -/
def extract_timeline_events (lines : List (List Char)) (nowYear : Nat) :
    List (Nat × List Char) :=
  let events := lines.filterMap parseTimelineLine
  let events :=
    if events.length < 3 then events ++ (timelineFallback nowYear).take (3 - events.length)
    else events
  sortTimeline events

-- ===== General lemmas =====

theorem length_take_le (n : Nat) (l : List Char) : (l.take n).length ≤ n := by
  simp only [List.length_take]
  omega

theorem strStarts_mem {p t : List Char} (h : strStarts p t = true) : ∀ c ∈ p, c ∈ t := by
  induction p generalizing t with
  | nil => intro c hc; cases hc
  | cons a as ih =>
    cases t with
    | nil => simp [strStarts] at h
    | cons b bs =>
      simp only [strStarts, Bool.and_eq_true, beq_iff_eq] at h
      intro c hc
      rcases List.mem_cons.mp hc with rfl | hc
      · exact h.1 ▸ List.mem_cons_self _ _
      · exact List.mem_cons_of_mem _ (ih h.2 c hc)

theorem pyIn_mem {p t : List Char} (h : pyIn p t = true) : ∀ c ∈ p, c ∈ t := by
  induction t with
  | nil =>
    intro c hc
    cases p with
    | nil => cases hc
    | cons a as => simp [pyIn, strStarts] at h
  | cons b bs ih =>
    simp only [pyIn, Bool.or_eq_true] at h
    intro c hc
    rcases h with h | h
    · exact strStarts_mem h c hc
    · exact List.mem_cons_of_mem _ (ih h c hc)

theorem pyIn_NA_eq_false {t : List Char} (h : '/' ∉ t) : pyIn (str "N/A") t = false := by
  cases hq : pyIn (str "N/A") t
  · rfl
  · exact absurd (pyIn_mem hq '/' (by decide)) h

-- ===== C1: aggregated-context character budgets =====

/-- C1: for every combination of inputs, the aggregated context string built
for the language model has length at most 12000 characters, and the context
rebuilt in the interactive Q&A path (`slack_ask`) has length at most 8000
characters. -/
theorem aggregated_context_length_bounds
    (companyName website : List Char) (internalTexts : List PageText)
    (pdfTexts : List (List Char)) (news : List NewsItem)
    (leadership : List LeadershipEntry)
    (storedContext : List Char) (fallbackContext : Option (List Char)) :
    (aggregate_company_content companyName website internalTexts pdfTexts
        news leadership).length ≤ 12000
      ∧ (slack_ask_context storedContext fallbackContext).length ≤ 8000 := by
  constructor
  · simp only [aggregate_company_content]
    exact length_take_le _ _
  · simp only [slack_ask_context]
    exact length_take_le _ _

-- ===== C8: PDF text extractor =====

theorem foldl_append_eq_join (L : List (List Char)) :
    ∀ acc : List Char, L.foldl (fun a p => a ++ p) acc = acc ++ L.flatten := by
  induction L with
  | nil => intro acc; simp
  | cons x xs ih => intro acc; simp [List.foldl, ih, List.append_assoc]

/-- C8: for every input, the PDF text extractor returns the concatenation of
the text of at most the first 10 pages truncated to at most 5000 characters,
and a parse failure yields the empty string (the `except` clause) rather
than an exception escaping the function. -/
theorem extract_pdf_text_spec (parsed : Except (List Char) (List (List Char))) :
    (extract_pdf_text parsed).length ≤ 5000
      ∧ (∀ e, parsed = .error e → extract_pdf_text parsed = [])
      ∧ (∀ pages, parsed = .ok pages →
          extract_pdf_text parsed = ((pages.take PDF_MAX_PAGES).flatten).take 5000) := by
  refine ⟨?_, ?_, ?_⟩
  · cases parsed with
    | error e => simp [extract_pdf_text]
    | ok pages =>
      simp only [extract_pdf_text]
      exact length_take_le _ _
  · intro e h
    subst h
    rfl
  · intro pages h
    subst h
    simp only [extract_pdf_text, foldl_append_eq_join, List.nil_append]

/-- Witness for C8 at a failing parse and at a two-page document. -/
theorem extract_pdf_text_spec_witness :
    extract_pdf_text (Except.error (str "not a pdf")) = []
      ∧ extract_pdf_text (Except.ok [str "page one ", str "page two"])
          = (([str "page one ", str "page two"].take PDF_MAX_PAGES).flatten).take 5000 :=
  ⟨(extract_pdf_text_spec _).2.1 _ rfl, (extract_pdf_text_spec _).2.2 _ rfl⟩

-- ===== C3: crawl failure behaviour =====

/-- C3 counterexample: when the crawl backend raises (network down, DNS
failure), `crawl_internal_pages` does not return the pair of empty lists —
the exception propagates to the caller, because the function body contains
no `try`/`except`. -/
theorem crawl_backend_error_counterexample :
    crawl_internal_pages (str "https://example.com") (Except.error (str "DNS failure"))
        = Except.error (str "DNS failure")
      ∧ crawl_internal_pages (str "https://example.com") (Except.error (str "DNS failure"))
        ≠ Except.ok ([], []) :=
  ⟨rfl, fun h => Except.noConfusion h⟩

/-- C3 amended: when the crawl backend runs and yields a result with no
pages (falsy `content`/`data`) and empty markdown, the caller receives the
pair of empty lists; a backend exception, however, propagates unchanged. -/
theorem crawl_internal_pages_empty_spec (baseUrl : List Char)
    (results : CrawlResults) (e : List Char)
    (hpages : results.contentPages = none ∨ results.contentPages = some [])
    (hmd : results.markdown = []) :
    crawl_internal_pages baseUrl (Except.ok results) = Except.ok ([], [])
      ∧ crawl_internal_pages baseUrl (Except.error e) = Except.error e := by
  constructor
  · rcases hpages with h | h <;>
      simp [crawl_internal_pages, crawl_process, h, hmd]
  · rfl

/-- Witness for C3 amended at a backend result with no pages. -/
theorem crawl_internal_pages_empty_witness :
    crawl_internal_pages (str "https://example.org") (Except.ok ⟨none, []⟩) = Except.ok ([], [])
      ∧ crawl_internal_pages (str "https://example.org") (Except.error (str "offline"))
        = Except.error (str "offline") :=
  crawl_internal_pages_empty_spec (str "https://example.org") ⟨none, []⟩ (str "offline")
    (Or.inl rfl) rfl

-- ===== C6: per-page truncation =====

/-- C6 counterexample: the crawl stores the backend's page text unmodified,
so a page whose backend text has 5001 characters yields a `PageRecord` whose
text exceeds the 5000-character bound; `extract_main_text`, which performs
the truncation, is never invoked by `crawl_internal_pages`. -/
theorem crawl_page_text_unbounded_counterexample :
    crawl_internal_pages (str "https://x.example")
        (Except.ok ⟨some [⟨some (str "https://x.example/about"), List.replicate 5001 'a'⟩], []⟩)
      = Except.ok ([⟨some (str "https://x.example/about"), List.replicate 5001 'a'⟩], [])
      ∧ (List.replicate 5001 'a').length = 5001 ∧ ¬ (5001 ≤ 5000) := by
  exact ⟨rfl, by rw [List.length_replicate], by omega⟩

/-- C6 amended: `extract_main_text` (boilerplate stripping, whitespace
collapsing, per-page truncation) produces at most 5000 characters; the
crawl result, however, stores backend page texts without this truncation. -/
theorem extract_main_text_length_le (textFromSoup : List Char) :
    (extract_main_text textFromSoup).length ≤ 5000 := by
  simp only [extract_main_text]
  exact length_take_le _ _

-- ===== C7: conversation-state cap =====

/-- C7 counterexample: the `ask_custom_question` write in the interactions
handler invokes no cleanup, so writing an 11th key leaves the mapping with
11 entries — more than the claimed cap of 10. -/
theorem conversation_state_write_no_cleanup_counterexample :
    (ask_custom_question_write
      [(str "c0:t0", ⟨false, true⟩), (str "c1:t1", ⟨false, true⟩), (str "c2:t2", ⟨false, true⟩),
       (str "c3:t3", ⟨false, true⟩), (str "c4:t4", ⟨false, true⟩), (str "c5:t5", ⟨false, true⟩),
       (str "c6:t6", ⟨false, true⟩), (str "c7:t7", ⟨false, true⟩), (str "c8:t8", ⟨false, true⟩),
       (str "c9:t9", ⟨false, true⟩)] (str "c10:t10")).length = 11
      ∧ ¬ (11 ≤ 10) := by
  constructor
  · decide
  · omega

/-- C7 amended: the cleanup-after-write performed by the summary task keeps
the mapping at no more than 10 entries, and the cleanup evicts the
oldest-inserted entries first (it keeps the suffix of the 10 most recently
inserted entries); the Q&A-toggle writes in the interactions handler,
however, invoke no cleanup and can leave more than 10 entries. -/
theorem conversation_state_cleanup_spec (s : ConvState) (k : List Char) :
    (process_summary_write s k).length ≤ 10
      ∧ (cleanup_conversation_state s).length ≤ 10
      ∧ (s.length > 10 → cleanup_conversation_state s = s.drop (s.length - 10)) := by
  have hc : ∀ t : ConvState, (cleanup_conversation_state t).length ≤ 10 := by
    intro t
    simp only [cleanup_conversation_state]
    split
    · simp only [List.length_drop]
      omega
    · omega
  refine ⟨hc _, hc _, ?_⟩
  intro h
  simp only [cleanup_conversation_state, if_pos h]

/-- Witness for C7 amended at an 11-entry state. -/
theorem conversation_state_cleanup_witness :
    (process_summary_write
        [(str "a0", ⟨false, true⟩), (str "a1", ⟨false, true⟩), (str "a2", ⟨false, true⟩),
         (str "a3", ⟨false, true⟩), (str "a4", ⟨false, true⟩), (str "a5", ⟨false, true⟩),
         (str "a6", ⟨false, true⟩), (str "a7", ⟨false, true⟩), (str "a8", ⟨false, true⟩),
         (str "a9", ⟨false, true⟩), (str "a10", ⟨false, true⟩)] (str "k")).length ≤ 10
      ∧ cleanup_conversation_state
        [(str "a0", ⟨false, true⟩), (str "a1", ⟨false, true⟩), (str "a2", ⟨false, true⟩),
         (str "a3", ⟨false, true⟩), (str "a4", ⟨false, true⟩), (str "a5", ⟨false, true⟩),
         (str "a6", ⟨false, true⟩), (str "a7", ⟨false, true⟩), (str "a8", ⟨false, true⟩),
         (str "a9", ⟨false, true⟩), (str "a10", ⟨false, true⟩)]
        = List.drop
          ((([(str "a0", (⟨false, true⟩ : ConvEntry)), (str "a1", ⟨false, true⟩), (str "a2", ⟨false, true⟩),
             (str "a3", ⟨false, true⟩), (str "a4", ⟨false, true⟩), (str "a5", ⟨false, true⟩),
             (str "a6", ⟨false, true⟩), (str "a7", ⟨false, true⟩), (str "a8", ⟨false, true⟩),
             (str "a9", ⟨false, true⟩), (str "a10", ⟨false, true⟩)] : ConvState).length) - 10)
          [(str "a0", ⟨false, true⟩), (str "a1", ⟨false, true⟩), (str "a2", ⟨false, true⟩),
           (str "a3", ⟨false, true⟩), (str "a4", ⟨false, true⟩), (str "a5", ⟨false, true⟩),
           (str "a6", ⟨false, true⟩), (str "a7", ⟨false, true⟩), (str "a8", ⟨false, true⟩),
           (str "a9", ⟨false, true⟩), (str "a10", ⟨false, true⟩)] :=
  ⟨(conversation_state_cleanup_spec _ (str "k")).1,
   (conversation_state_cleanup_spec _ (str "k")).2.2 (by decide)⟩

-- ===== C5: market classification =====

theorem endsWithB_drop {l s : List Char} (h : endsWithB l s = true) :
    l.drop (l.length - s.length) = s := by
  simp only [endsWithB] at h
  exact eq_of_beq h

theorem endsWith_two_drop {l s : List Char} (hs : s.length = 2) (h : endsWithB l s = true) :
    l.drop (l.length - 2) = s := by
  have h2 := endsWithB_drop h
  rwa [hs] at h2

theorem lastTwo_of_ends3 {l : List Char} {a b c : Char} (h : endsWithB l [a, b, c] = true) :
    l.drop (l.length - 2) = [b, c] ∧ a ∈ l := by
  have h3 := endsWithB_drop h
  simp only [List.length_cons, List.length_nil] at h3
  have hlen : 3 ≤ l.length := by
    have hl := congrArg List.length h3
    simp only [List.length_drop, List.length_cons, List.length_nil] at hl
    omega
  constructor
  · have hdd : l.drop (l.length - 2) = List.drop 1 (l.drop (l.length - 3)) := by
      rw [List.drop_drop]
      congr 1
      omega
    rw [hdd, h3]
    rfl
  · have hmem : a ∈ l.drop (l.length - 3) := by
      rw [h3]
      exact List.mem_cons_self _ _
    exact List.mem_of_mem_drop hmem

theorem endsWith_dot_single_false {l : List Char} {a b : Char}
    (h2 : l.drop (l.length - 2) = [a, b]) (ha : a ≠ '.') (c : Char) :
    endsWithB l ['.', c] = false := by
  cases hq : endsWithB l ['.', c]
  · rfl
  · exfalso
    have hd := endsWith_two_drop (by rfl) hq
    rw [h2] at hd
    injection hd with h4 _
    exact ha h4

/-- C5 counterexample: the resolved ticker `0700.HK` exists, does not end in
`.NS` or `.BO`, yet is not classified US either — its two-letter suffix is
not in the single-letter suffix disjunction, so the general path is taken
instead of the US provider path. -/
theorem ticker_hk_counterexample :
    providerPath (some (str "0700.HK")) = ProviderPath.general
      ∧ ProviderPath.general ≠ ProviderPath.us := by
  constructor
  · decide
  · decide

/-- C5 amended: a ticker ending in `.NS` or `.BO` is classified India and
takes the India provider path; a ticker containing no dot is classified US
and takes the US provider path; but tickers with other multi-letter dotted
suffixes (e.g. `.HK`, `.DE`) are classified neither and take the general
path. -/
theorem ticker_market_classification (l : List Char) (hne : l ≠ []) :
    ((endsWithB l (str ".NS") = true ∨ endsWithB l (str ".BO") = true) →
        providerPath (some l) = ProviderPath.india)
      ∧ (l.contains '.' = false → providerPath (some l) = ProviderPath.us) := by
  have hem : l.isEmpty = false := by
    cases l
    · exact absurd rfl hne
    · rfl
  constructor
  · intro h
    have hkey : (l.drop (l.length - 2) = ['N', 'S'] ∨ l.drop (l.length - 2) = ['B', 'O'])
        ∧ '.' ∈ l := by
      rcases h with h | h
      · have := lastTwo_of_ends3 (l := l) (a := '.') (b := 'N') (c := 'S') h
        exact ⟨Or.inl this.1, this.2⟩
      · have := lastTwo_of_ends3 (l := l) (a := '.') (b := 'B') (c := 'O') h
        exact ⟨Or.inr this.1, this.2⟩
    have hall : ∀ s ∈ usSuffixes, endsWithB l s = false := by
      intro s hs
      rcases hkey.1 with h2 | h2 <;>
        (fin_cases hs <;> exact endsWith_dot_single_false h2 (by decide) _)
    have hany : (usSuffixes.any fun s => endsWithB l s) = false := by
      rw [List.any_eq_false]
      intro s hs
      simp [hall s hs]
    have hcont : l.contains '.' = true := by
      rw [List.contains_eq_any_beq]
      rw [List.any_eq_true]
      exact ⟨'.', hkey.2, by simp⟩
    have hus : is_us (some l) = false := by
      simp only [is_us, hem, hcont, hany]
      rfl
    have hin : is_india (some l) = true := by
      simp only [is_india, hem]
      rcases h with h | h <;> simp [h]
    simp only [providerPath, hus, hin, truthyTicker, hem, Bool.false_and, Bool.not_false,
      Bool.true_and, if_false]
    rfl
  · intro hdot
    have hus : is_us (some l) = true := by
      simp only [is_us, hem, hdot]
      rfl
    simp only [providerPath, hus, truthyTicker, hem, Bool.not_false, Bool.true_and]
    rfl

/-- Witness for C5 amended at `RELIANCE.NS` (India) and `MSFT` (US). -/
theorem ticker_market_classification_witness :
    providerPath (some (str "RELIANCE.NS")) = ProviderPath.india
      ∧ providerPath (some (str "MSFT")) = ProviderPath.us :=
  ⟨(ticker_market_classification (str "RELIANCE.NS") (by decide)).1 (Or.inl (by decide)),
   (ticker_market_classification (str "MSFT") (by decide)).2 (by decide)⟩

-- ===== C4: leadership deduplication =====

theorem dedupeLeadershipAux_spec (l : List LeadershipEntry) : ∀ seen,
    List.Pairwise (fun a b => lowerKey a ≠ lowerKey b) (dedupeLeadershipAux seen l)
      ∧ ∀ e ∈ dedupeLeadershipAux seen l, lowerKey e ∉ seen := by
  induction l with
  | nil =>
    intro seen
    simp [dedupeLeadershipAux]
  | cons e rest ih =>
    intro seen
    by_cases h : lowerKey e ∈ seen
    · simpa [dedupeLeadershipAux, h] using ih seen
    · simp only [dedupeLeadershipAux, if_neg h]
      obtain ⟨ihp, ihm⟩ := ih (lowerKey e :: seen)
      refine ⟨List.pairwise_cons.mpr ⟨?_, ihp⟩, ?_⟩
      · intro b hb hkey
        exact ihm b hb (hkey ▸ List.mem_cons_self _ _)
      · intro x hx
        rcases List.mem_cons.mp hx with rfl | hx
        · exact h
        · intro hxs
          exact ihm x hx (List.mem_cons_of_mem _ hxs)

theorem dedupeLeadershipAux_eq_self (l : List LeadershipEntry) : ∀ seen,
    (∀ e ∈ l, lowerKey e ∉ seen) →
    List.Pairwise (fun a b => lowerKey a ≠ lowerKey b) l →
    dedupeLeadershipAux seen l = l := by
  induction l with
  | nil => intro seen _ _; rfl
  | cons e rest ih =>
    intro seen hseen hp
    have hnot : lowerKey e ∉ seen := hseen e (List.mem_cons_self _ _)
    simp only [dedupeLeadershipAux, if_neg hnot]
    obtain ⟨hhead, htail⟩ := List.pairwise_cons.mp hp
    congr 1
    apply ih
    · intro x hx hmem
      rcases List.mem_cons.mp hmem with hk | hk
      · exact hhead x hx hk.symm
      · exact hseen x (List.mem_cons_of_mem _ hx) hk
    · exact htail

/-- C4 counterexample: the encyclopedia-infobox strategy applies no
deduplication — an infobox whose `CEO` row lists `CEO: Jane Doe` twice
yields two entries with the same lowercase `(name, role)` pair, and
re-running the dedupe step shrinks the returned list. -/
theorem wikipedia_leadership_duplicate_counterexample :
    ¬ List.Pairwise (fun a b => lowerKey a ≠ lowerKey b)
        (fetch_wikipedia_leadership [⟨str "CEO", [str "CEO: Jane Doe", str "CEO: Jane Doe"]⟩])
      ∧ dedupeLeadership
          (fetch_wikipedia_leadership [⟨str "CEO", [str "CEO: Jane Doe", str "CEO: Jane Doe"]⟩])
        ≠ fetch_wikipedia_leadership [⟨str "CEO", [str "CEO: Jane Doe", str "CEO: Jane Doe"]⟩] := by
  constructor
  · decide
  · decide

/-- C4 amended: the site-scraping strategy deduplicates its output by
lowercase `(name, role)` — no two returned entries share a key, and
applying the dedupe step to its returned list leaves the list unchanged;
the encyclopedia-infobox strategy (and the model-assisted strategy, which
returns the parsed model output as-is) perform no such deduplication. -/
theorem website_leadership_dedupe_spec (raw : List LeadershipEntry) :
    List.Pairwise (fun a b => lowerKey a ≠ lowerKey b) (extract_leadership_from_website raw)
      ∧ dedupeLeadership (extract_leadership_from_website raw)
        = extract_leadership_from_website raw := by
  have hs := dedupeLeadershipAux_spec raw []
  refine ⟨hs.1, ?_⟩
  exact dedupeLeadershipAux_eq_self _ [] (fun e he => by simp) hs.1

-- ===== C9: timeline extractor =====

theorem pairLeB_le_of_true {a b : Nat × List Char} (h : pairLeB a b = true) : a.1 ≤ b.1 := by
  by_cases h1 : a.1 < b.1
  · omega
  · by_cases h2 : b.1 < a.1
    · simp [pairLeB, h1, h2] at h
    · omega

theorem pairLeB_le_of_false {a b : Nat × List Char} (h : pairLeB a b = false) : b.1 ≤ a.1 := by
  by_cases h1 : a.1 < b.1
  · simp [pairLeB, h1] at h
  · omega

theorem mem_insertAsc {x y : Nat × List Char} : ∀ {l : List (Nat × List Char)},
    y ∈ insertAsc x l ↔ y = x ∨ y ∈ l := by
  intro l
  induction l with
  | nil => simp [insertAsc]
  | cons z zs ih =>
    simp only [insertAsc]
    split
    · simp [List.mem_cons]
    · simp only [List.mem_cons, ih]
      tauto

theorem length_insertAsc (x : Nat × List Char) : ∀ (l : List (Nat × List Char)),
    (insertAsc x l).length = l.length + 1 := by
  intro l
  induction l with
  | nil => rfl
  | cons z zs ih =>
    simp only [insertAsc]
    split
    · simp
    · simp only [List.length_cons, ih]

theorem pairwise_insertAsc {x : Nat × List Char} : ∀ {l : List (Nat × List Char)},
    List.Pairwise (fun a b => a.1 ≤ b.1) l →
    List.Pairwise (fun a b => a.1 ≤ b.1) (insertAsc x l) := by
  intro l
  induction l with
  | nil => intro _; simp [insertAsc]
  | cons z zs ih =>
    intro h
    obtain ⟨hz, hzs⟩ := List.pairwise_cons.mp h
    simp only [insertAsc]
    split
    · rename_i hle
      refine List.pairwise_cons.mpr ⟨?_, h⟩
      intro b hb
      rcases List.mem_cons.mp hb with rfl | hb
      · exact pairLeB_le_of_true hle
      · exact le_trans (pairLeB_le_of_true hle) (hz b hb)
    · rename_i hgt
      refine List.pairwise_cons.mpr ⟨?_, ih hzs⟩
      intro b hb
      rcases mem_insertAsc.mp hb with rfl | hb
      · exact pairLeB_le_of_false (Bool.eq_false_iff.mpr hgt)
      · exact hz b hb

theorem mem_sortTimeline {y : Nat × List Char} : ∀ {l : List (Nat × List Char)},
    y ∈ sortTimeline l ↔ y ∈ l := by
  intro l
  induction l with
  | nil => simp [sortTimeline]
  | cons z zs ih => simp [sortTimeline, mem_insertAsc, ih]

theorem length_sortTimeline : ∀ (l : List (Nat × List Char)),
    (sortTimeline l).length = l.length := by
  intro l
  induction l with
  | nil => rfl
  | cons z zs ih => simp [sortTimeline, length_insertAsc, ih]

theorem pairwise_sortTimeline : ∀ (l : List (Nat × List Char)),
    List.Pairwise (fun a b => a.1 ≤ b.1) (sortTimeline l) := by
  intro l
  induction l with
  | nil => simp [sortTimeline]
  | cons z zs ih => exact pairwise_insertAsc ih

theorem toNatDigits_aux_lt : ∀ (t : List Char) (acc : Nat),
    (∀ c ∈ t, isDigitB c = true) →
    t.foldl (fun n c => n * 10 + (c.toNat - 48)) acc < (acc + 1) * 10 ^ t.length := by
  intro t
  induction t with
  | nil =>
    intro acc _
    simp
  | cons c cs ih =>
    intro acc h
    have hd : c.toNat - 48 ≤ 9 := by
      have hc := h c (List.mem_cons_self _ _)
      simp only [isDigitB, Bool.and_eq_true, decide_eq_true_eq] at hc
      omega
    calc (c :: cs).foldl (fun n c => n * 10 + (c.toNat - 48)) acc
        = cs.foldl (fun n c => n * 10 + (c.toNat - 48)) (acc * 10 + (c.toNat - 48)) := rfl
      _ < (acc * 10 + (c.toNat - 48) + 1) * 10 ^ cs.length :=
          ih _ (fun d hd' => h d (List.mem_cons_of_mem _ hd'))
      _ ≤ ((acc + 1) * 10) * 10 ^ cs.length := Nat.mul_le_mul_right _ (by omega)
      _ = (acc + 1) * 10 ^ (c :: cs).length := by
          simp only [List.length_cons, pow_succ]
          ring

theorem toNatDigits_lt (t : List Char) (h : ∀ c ∈ t, isDigitB c = true) :
    toNatDigits t < 10 ^ t.length := by
  have := toNatDigits_aux_lt t 0 h
  simpa [toNatDigits] using this

theorem parseTimelineLine_year_le {line : List Char} {e : Nat × List Char}
    (h : parseTimelineLine line = some e) : e.1 ≤ 9999 := by
  simp only [parseTimelineLine] at h
  split at h
  · exact Option.noConfusion h
  · rename_i yd _
    split at h
    · rename_i hok
      rw [Bool.and_eq_true] at hok
      obtain ⟨h1, h2⟩ := hok
      have hlen : (pyStrip yd.1).length = 4 := eq_of_beq h2
      have hdig : ∀ c ∈ pyStrip yd.1, isDigitB c = true := by
        rw [isDigits, Bool.and_eq_true] at h1
        have hall := h1.2
        exact fun c hc => List.all_eq_true.mp hall c hc
      have hlt := toNatDigits_lt _ hdig
      rw [hlen] at hlt
      injection h with h'
      rw [← h']
      norm_num at hlt ⊢
      omega
    · exact Option.noConfusion h

/-- C9: for every model response and current year at most 9999, the timeline
extractor returns at least 3 events, sorted ascending by year, in which
every year fits in a 4-digit token (year ≤ 9999): parsed lines whose year
token is not a string of exactly 4 digits are dropped by
`parseTimelineLine` before the generic fallback events are appended to
reach the floor of 3. -/
theorem extract_timeline_events_spec (lines : List (List Char)) (nowYear : Nat)
    (hnow : nowYear ≤ 9999) :
    3 ≤ (extract_timeline_events lines nowYear).length
      ∧ List.Pairwise (fun a b => a.1 ≤ b.1) (extract_timeline_events lines nowYear)
      ∧ ∀ e ∈ extract_timeline_events lines nowYear, e.1 ≤ 9999 := by
  refine ⟨?_, ?_, ?_⟩
  · simp only [extract_timeline_events, length_sortTimeline]
    by_cases h : (lines.filterMap parseTimelineLine).length < 3
    · rw [if_pos h]
      simp only [List.length_append, List.length_take, timelineFallback,
        List.length_cons, List.length_nil]
      omega
    · rw [if_neg h]
      omega
  · exact pairwise_sortTimeline _
  · intro e he
    simp only [extract_timeline_events, mem_sortTimeline] at he
    have hmem : e ∈ lines.filterMap parseTimelineLine ∨ e ∈ timelineFallback nowYear := by
      by_cases h : (lines.filterMap parseTimelineLine).length < 3
      · rw [if_pos h] at he
        rcases List.mem_append.mp he with he | he
        · exact Or.inl he
        · exact Or.inr (List.mem_of_mem_take he)
      · rw [if_neg h] at he
        exact Or.inl he
    rcases hmem with he | he
    · obtain ⟨line, _, hpl⟩ := List.mem_filterMap.mp he
      exact parseTimelineLine_year_le hpl
    · simp only [timelineFallback, List.mem_cons, List.not_mem_nil, or_false] at he
      rcases he with rfl | rfl | rfl
      · simp only
        omega
      · simp only
        omega
      · simp only
        omega

/-- Witness for C9 at a two-line response (one valid year line) and the
current year 2026. -/
theorem extract_timeline_events_spec_witness :
    3 ≤ (extract_timeline_events [str "2021: Founded", str "no year here"] 2026).length
      ∧ List.Pairwise (fun a b => a.1 ≤ b.1)
          (extract_timeline_events [str "2021: Founded", str "no year here"] 2026)
      ∧ ∀ e ∈ extract_timeline_events [str "2021: Founded", str "no year here"] 2026,
          e.1 ≤ 9999 :=
  extract_timeline_events_spec [str "2021: Founded", str "no year here"] 2026 (by omega)

-- ===== C2: "N/A" filtering across the provider paths =====

theorem digitChar_isDigitB {d : Nat} (h : d < 10) : isDigitB (Nat.digitChar d) = true := by
  interval_cases d <;> decide

theorem toDigitsCore_isDigitB : ∀ (f n : Nat) (acc : List Char),
    (∀ c ∈ acc, isDigitB c = true) → ∀ c ∈ Nat.toDigitsCore 10 f n acc, isDigitB c = true := by
  intro f
  induction f with
  | zero =>
    intro n acc hacc c hc
    exact hacc c hc
  | succ f ih =>
    intro n acc hacc c hc
    have hd : isDigitB (Nat.digitChar (n % 10)) = true :=
      digitChar_isDigitB (Nat.mod_lt _ (by norm_num))
    simp only [Nat.toDigitsCore] at hc
    split at hc
    · rcases List.mem_cons.mp hc with rfl | hc
      · exact hd
      · exact hacc c hc
    · refine ih _ _ ?_ c hc
      intro d hd'
      rcases List.mem_cons.mp hd' with rfl | hd'
      · exact hd
      · exact hacc d hd'

theorem natDec_isDigitB (n : Nat) : ∀ c ∈ natDec n, isDigitB c = true := by
  intro c hc
  exact toDigitsCore_isDigitB _ _ [] (by intro d hd; cases hd) c hc

theorem isDigitB_ne_slash {c : Char} (h : isDigitB c = true) : c ≠ '/' := by
  intro he
  subst he
  exact absurd h (by decide)

theorem natDec_no_slash (n : Nat) : '/' ∉ natDec n := by
  intro h
  exact isDigitB_ne_slash (natDec_isDigitB n '/' h) rfl

theorem mem_commasAux : ∀ (ds : List Char) (k : Nat), ∀ c ∈ commasAux k ds, c ∈ ds ∨ c = ',' := by
  intro ds
  induction ds with
  | nil =>
    intro k c hc
    cases hc
  | cons d rest ih =>
    intro k c hc
    simp only [commasAux] at hc
    split at hc
    · rcases List.mem_cons.mp hc with rfl | hc
      · exact Or.inr rfl
      rcases List.mem_cons.mp hc with rfl | hc
      · exact Or.inl (List.mem_cons_self _ _)
      rcases ih 2 c hc with h | h
      · exact Or.inl (List.mem_cons_of_mem _ h)
      · exact Or.inr h
    · rcases List.mem_cons.mp hc with rfl | hc
      · exact Or.inl (List.mem_cons_self _ _)
      rcases ih (k - 1) c hc with h | h
      · exact Or.inl (List.mem_cons_of_mem _ h)
      · exact Or.inr h

theorem natCommas_no_slash (n : Nat) : '/' ∉ natCommas n := by
  intro h
  simp only [natCommas, List.mem_reverse] at h
  rcases mem_commasAux _ _ _ h with h | h
  · rw [List.mem_reverse] at h
    exact natDec_no_slash n h
  · exact absurd h (by decide)

theorem intCommas_no_slash (v : Int) : '/' ∉ intCommas v := by
  intro h
  simp only [intCommas] at h
  split at h
  · rcases List.mem_cons.mp h with h | h
    · exact absurd h (by decide)
    · exact natCommas_no_slash _ h
  · exact natCommas_no_slash _ h

theorem commaFixed2_no_slash (v : Int) : '/' ∉ commaFixed2 v := by
  intro h
  simp only [commaFixed2, List.mem_append] at h
  rcases h with (((h | h) | h) | h) | h
  · split at h
    · rcases List.mem_cons.mp h with h | h
      · exact absurd h (by decide)
      · cases h
    · cases h
  · exact natCommas_no_slash _ h
  · rcases List.mem_cons.mp h with h | h
    · exact absurd h (by decide)
    · cases h
  · exact natDec_no_slash _ h
  · exact natDec_no_slash _ h

/-- The general (yfinance) path: every returned statement survives the
`'N/A' not in t` filter of line 516. -/
theorem yf_statements_no_NA (info : YfInfo) :
    ∀ t ∈ yfTrendStatements info, pyIn (str "N/A") t = false := by
  intro t ht
  have := List.of_mem_filter ht
  simpa using this

/-- The India path: `Close Price {y}: ₹{close:,.2f}` statements contain no
slash, hence no `N/A`. -/
theorem india_statements_no_NA (yearCloses : List (Nat × Int)) :
    ∀ t ∈ indiaTrendStatements yearCloses, pyIn (str "N/A") t = false := by
  intro t ht
  simp only [indiaTrendStatements, List.mem_map] at ht
  obtain ⟨yc, _, rfl⟩ := ht
  apply pyIn_NA_eq_false
  intro h
  simp only [List.mem_append] at h
  rcases h with ((h | h) | h) | h
  · exact absurd h (by decide)
  · exact natDec_no_slash _ h
  · exact absurd h (by decide)
  · exact commaFixed2_no_slash _ h

theorem pyDictSet_update_fst {V : Type} (b : List (List Char × V)) (k : List Char) (v : V) :
    (b.map fun p => if p.1 == k then (p.1, v) else p).map Prod.fst = b.map Prod.fst := by
  rw [List.map_map]
  apply List.map_congr_left
  intro p _
  simp only [Function.comp]
  by_cases h : p.1 = k
  · simp [h]
  · rw [if_neg (by simpa using h)]

theorem pyDictSet_fst_mem {V : Type} {b : List (List Char × V)} {k k' : List Char} {v : V}
    (h : k' ∈ (pyDictSet b k v).map Prod.fst) : k' = k ∨ k' ∈ b.map Prod.fst := by
  simp only [pyDictSet] at h
  split at h
  · rw [pyDictSet_update_fst] at h
    exact Or.inr h
  · rw [List.map_append, List.mem_append] at h
    rcases h with h | h
    · exact Or.inr h
    · simp only [List.map_cons, List.map_nil, List.mem_singleton] at h
      exact Or.inl h

theorem pyDictSet_fst_self {V : Type} (b : List (List Char × V)) (k : List Char) (v : V) :
    k ∈ (pyDictSet b k v).map Prod.fst := by
  simp only [pyDictSet]
  split
  · rename_i hany
    obtain ⟨p, hp, hpk⟩ := List.any_eq_true.mp hany
    rw [pyDictSet_update_fst]
    exact List.mem_map.mpr ⟨p, hp, eq_of_beq hpk⟩
  · rw [List.map_append, List.mem_append]
    right
    simp

theorem pyDictSet_fst_of_mem {V : Type} {b : List (List Char × V)} {k' : List Char}
    (k : List Char) (v : V) (h : k' ∈ b.map Prod.fst) :
    k' ∈ (pyDictSet b k v).map Prod.fst := by
  simp only [pyDictSet]
  split
  · rwa [pyDictSet_update_fst]
  · rw [List.map_append, List.mem_append]
    exact Or.inl h

theorem pyDictSet_snd_mem {V : Type} {b : List (List Char × V)} {k : List Char} {v v' : V}
    (h : v' ∈ (pyDictSet b k v).map Prod.snd) : v' = v ∨ v' ∈ b.map Prod.snd := by
  simp only [pyDictSet] at h
  split at h
  · rw [List.map_map] at h
    obtain ⟨p, hp, hpv⟩ := List.mem_map.mp h
    by_cases hk : p.1 == k
    · simp only [Function.comp, hk, if_pos] at hpv
      exact Or.inl hpv.symm
    · simp only [Function.comp, hk] at hpv
      rw [if_neg (by simp [hk])] at hpv
      exact Or.inr (List.mem_map.mpr ⟨p, hp, hpv⟩)
  · rw [List.map_append, List.mem_append] at h
    rcases h with h | h
    · exact Or.inr h
    · simp only [List.map_cons, List.map_nil, List.mem_singleton] at h
      exact Or.inl h

theorem head?_mem {α : Type} {l : List α} {a : α} (h : l.head? = some a) : a ∈ l := by
  cases l with
  | nil => cases h
  | cons x xs =>
    injection h with h'
    exact h' ▸ List.mem_cons_self _ _

theorem bucket_foldl_keys : ∀ (ms : List FinMatch) (b : List (List Char × List Char))
    (k : List Char), k ∈ (ms.foldl bucketStep b).map Prod.fst →
    k ∈ b.map Prod.fst ∨ k = str "latest" ∨ ∃ m ∈ ms, k ∈ m.nearbyYears := by
  intro ms
  induction ms with
  | nil =>
    intro b k hk
    exact Or.inl hk
  | cons m rest ih =>
    intro b k hk
    rcases ih (bucketStep b m) k hk with h | h | ⟨m', hm', hy⟩
    · simp only [bucketStep] at h
      cases hh : m.nearbyYears.head? with
      | some y =>
        rw [hh] at h
        rcases pyDictSet_fst_mem h with rfl | h
        · exact Or.inr (Or.inr ⟨m, List.mem_cons_self _ _, head?_mem hh⟩)
        · exact Or.inl h
      | none =>
        rw [hh] at h
        rcases pyDictSet_fst_mem h with rfl | h
        · exact Or.inr (Or.inl rfl)
        · exact Or.inl h
    · exact Or.inr (Or.inl h)
    · exact Or.inr (Or.inr ⟨m', List.mem_cons_of_mem _ hm', hy⟩)

theorem bucket_foldl_vals : ∀ (ms : List FinMatch) (b : List (List Char × List Char))
    (v : List Char), v ∈ (ms.foldl bucketStep b).map Prod.snd →
    v ∈ b.map Prod.snd ∨ ∃ m ∈ ms, v = m.val := by
  intro ms
  induction ms with
  | nil =>
    intro b v hv
    exact Or.inl hv
  | cons m rest ih =>
    intro b v hv
    rcases ih (bucketStep b m) v hv with h | ⟨m', hm', hval⟩
    · simp only [bucketStep] at h
      cases hh : m.nearbyYears.head? with
      | some y =>
        rw [hh] at h
        rcases pyDictSet_snd_mem h with rfl | h
        · exact Or.inr ⟨m, List.mem_cons_self _ _, rfl⟩
        · exact Or.inl h
      | none =>
        rw [hh] at h
        rcases pyDictSet_snd_mem h with rfl | h
        · exact Or.inr ⟨m, List.mem_cons_self _ _, rfl⟩
        · exact Or.inl h
    · exact Or.inr ⟨m', List.mem_cons_of_mem _ hm', hval⟩

theorem pyGet_mem_snd {V : Type} {b : List (List Char × V)} {k : List Char} {v : V}
    (h : pyGet b k = some v) : v ∈ b.map Prod.snd := by
  simp only [pyGet, Option.map_eq_some'] at h
  obtain ⟨p, hp, hpv⟩ := h
  exact hpv ▸ List.mem_map.mpr ⟨p, List.mem_of_find?_eq_some hp, rfl⟩

theorem mem_append_single {α : Type} {p e : α} {l : List α} (h : p ∈ l ++ [e]) :
    p ∈ l ∨ p = e := by
  rcases List.mem_append.mp h with h | h
  · exact Or.inl h
  · simp only [List.mem_singleton] at h
    exact Or.inr h

theorem finRowStep_mem {rb pb gb acc : List (List Char × List Char)} {y : List Char}
    {p : List Char × List Char} (h : p ∈ finRowStep rb pb gb acc y) :
    p ∈ acc
      ∨ (p.1 = str "Revenue " ++ y ∧ pyGet rb y = some p.2)
      ∨ (p.1 = str "Net Profit " ++ y ∧ pyGet pb y = some p.2)
      ∨ (p.1 = str "Growth " ++ y ∧ pyGet gb y = some p.2) := by
  simp only [finRowStep] at h
  have step : ∀ (label : List Char) (bk : List (List Char × List Char))
      (a : List (List Char × List Char)),
      p ∈ (match pyGet bk y with
        | some v => if v ≠ [] then a ++ [(label ++ y, v)] else a
        | none => a) →
      p ∈ a ∨ (p.1 = label ++ y ∧ pyGet bk y = some p.2) := by
    intro label bk a hp
    cases hg : pyGet bk y with
    | none =>
      rw [hg] at hp
      exact Or.inl hp
    | some v =>
      rw [hg] at hp
      change p ∈ if v ≠ [] then a ++ [(label ++ y, v)] else a at hp
      split at hp
      · rcases mem_append_single hp with hp | hp
        · exact Or.inl hp
        · refine Or.inr ⟨by rw [hp], ?_⟩
          subst hp
          rfl
      · exact Or.inl hp
  rcases step (str "Growth ") gb _ h with h | h
  · rcases step (str "Net Profit ") pb _ h with h | h
    · rcases step (str "Revenue ") rb _ h with h | h
      · exact Or.inl h
      · exact Or.inr (Or.inl h)
    · exact Or.inr (Or.inr (Or.inl h))
  · exact Or.inr (Or.inr (Or.inr h))

theorem finRow_foldl_mem : ∀ (years : List (List Char))
    (rb pb gb acc : List (List Char × List Char)) (p : List Char × List Char),
    p ∈ years.foldl (finRowStep rb pb gb) acc →
    p ∈ acc ∨ ∃ y ∈ years,
      (p.1 = str "Revenue " ++ y ∧ pyGet rb y = some p.2)
        ∨ (p.1 = str "Net Profit " ++ y ∧ pyGet pb y = some p.2)
        ∨ (p.1 = str "Growth " ++ y ∧ pyGet gb y = some p.2) := by
  intro years
  induction years with
  | nil =>
    intro rb pb gb acc p hp
    exact Or.inl hp
  | cons y ys ih =>
    intro rb pb gb acc p hp
    rcases ih rb pb gb _ p hp with h | ⟨y', hy', hcase⟩
    · rcases finRowStep_mem h with h | h | h | h
      · exact Or.inl h
      · exact Or.inr ⟨y, List.mem_cons_self _ _, Or.inl h⟩
      · exact Or.inr ⟨y, List.mem_cons_self _ _, Or.inr (Or.inl h)⟩
      · exact Or.inr ⟨y, List.mem_cons_self _ _, Or.inr (Or.inr h)⟩
    · exact Or.inr ⟨y', List.mem_cons_of_mem _ hy', hcase⟩

theorem mem_insertDesc {x y : List Char} : ∀ {l : List (List Char)},
    y ∈ insertDesc x l ↔ y = x ∨ y ∈ l := by
  intro l
  induction l with
  | nil => simp [insertDesc]
  | cons z zs ih =>
    simp only [insertDesc]
    split
    · simp [List.mem_cons]
    · simp only [List.mem_cons, ih]
      tauto

theorem mem_sortDesc {y : List Char} : ∀ {l : List (List Char)},
    y ∈ sortDesc l ↔ y ∈ l := by
  intro l
  induction l with
  | nil => simp [sortDesc]
  | cons z zs ih => simp [sortDesc, mem_insertDesc, ih]

/-- The regex-fallback path: given that no regex-matched value or nearby
year contains a slash (the value pattern admits only currency symbols,
digits, separators and unit words; the year pattern admits only digits),
no emitted `{key}: {value}` statement contains `N/A`. -/
theorem fallback_statements_no_NA (revMs profMs growMs : List FinMatch)
    (hvals : ∀ m ∈ revMs ++ profMs ++ growMs, '/' ∉ m.val)
    (hyears : ∀ m ∈ revMs ++ profMs ++ growMs, ∀ y ∈ m.nearbyYears, '/' ∉ y) :
    ∀ t ∈ fallbackTrendStatements revMs profMs growMs, pyIn (str "N/A") t = false := by
  intro t ht
  simp only [fallbackTrendStatements, List.mem_map] at ht
  obtain ⟨p, hp, rfl⟩ := ht
  have hyear_no_slash : ∀ y ∈ (extract_financials revMs profMs growMs).2, '/' ∉ y := by
    intro y hy
    simp only [extract_financials] at hy
    split at hy
    · cases hy
    · have hy' := List.mem_dedup.mp (mem_sortDesc.mp (List.mem_of_mem_take hy))
      simp only [List.mem_append] at hy'
      have resolve : ∀ (ms : List FinMatch), ms = revMs ∨ ms = profMs ∨ ms = growMs →
          y ∈ (bucketMatches ms).map Prod.fst → '/' ∉ y := by
        intro ms hms hmem
        rcases bucket_foldl_keys ms [] y hmem with h | h | ⟨m, hm, hy2⟩
        · cases h
        · subst h
          decide
        · refine hyears m ?_ y hy2
          rcases hms with rfl | rfl | rfl
          · exact List.mem_append_left _ (List.mem_append_left _ hm)
          · exact List.mem_append_left _ (List.mem_append_right _ hm)
          · exact List.mem_append_right _ hm
      rcases hy' with (h | h) | h
      · exact resolve revMs (Or.inl rfl) h
      · exact resolve profMs (Or.inr (Or.inl rfl)) h
      · exact resolve growMs (Or.inr (Or.inr rfl)) h
  have hval_no_slash : ∀ (ms : List FinMatch), ms = revMs ∨ ms = profMs ∨ ms = growMs →
      ∀ v, v ∈ (bucketMatches ms).map Prod.snd → '/' ∉ v := by
    intro ms hms v hmem
    rcases bucket_foldl_vals ms [] v hmem with h | ⟨m, hm, rfl⟩
    · cases h
    · refine hvals m ?_
      rcases hms with rfl | rfl | rfl
      · exact List.mem_append_left _ (List.mem_append_left _ hm)
      · exact List.mem_append_left _ (List.mem_append_right _ hm)
      · exact List.mem_append_right _ hm
  have hpmem : p ∈ (extract_financials revMs profMs growMs).1 := hp
  simp only [extract_financials] at hpmem
  split at hpmem
  · cases hpmem
  · rcases finRow_foldl_mem _ _ _ _ _ _ hpmem with h | ⟨y, hy, hcase⟩
    · cases h
    · have hyns : '/' ∉ y := by
        apply hyear_no_slash
        simp only [extract_financials]
        rw [if_neg (by assumption)]
        exact hy
      apply pyIn_NA_eq_false
      intro hmem
      simp only [List.mem_append] at hmem
      rcases hcase with ⟨hk, hv⟩ | ⟨hk, hv⟩ | ⟨hk, hv⟩ <;>
        (rcases hmem with (hmem | hmem) | hmem
         · rw [hk] at hmem
           rcases List.mem_append.mp hmem with hmem | hmem
           · revert hmem
             decide
           · exact hyns hmem
         · revert hmem
           decide
         · rename_i hemp
           exact hval_no_slash _ (by tauto) p.2 (pyGet_mem_snd hv) hmem)

/-- C2 counterexample: on the Provider A (US / polygon) path, a fundamentals
row whose revenue value is missing produces the literal statement
`Revenue 2023: N/A` (line 440), and the trends list is returned at line 460
without any filter. -/
theorem us_path_na_counterexample :
    (polygonTrendStatements ⟨none, none, none⟩ [⟨2023, none, some 5⟩]).any
        (fun t => pyIn (str "N/A") t) = true := by
  decide

/-- C2 amended: on the general (Provider C / yfinance) path every statement
containing `N/A` is filtered out before return, and the India-path and
regex-fallback statements can never contain `N/A` (their character sets
exclude the slash); but on the Provider A (US / polygon) path, fundamentals
rows with missing revenue or net income produce literal `N/A` statements
that are returned unfiltered. -/
theorem trend_statements_na_filtered
    (info : YfInfo) (yearCloses : List (Nat × Int)) (revMs profMs growMs : List FinMatch)
    (hvals : ∀ m ∈ revMs ++ profMs ++ growMs, '/' ∉ m.val)
    (hyears : ∀ m ∈ revMs ++ profMs ++ growMs, ∀ y ∈ m.nearbyYears, '/' ∉ y) :
    (∀ t ∈ yfTrendStatements info, pyIn (str "N/A") t = false)
      ∧ (∀ t ∈ indiaTrendStatements yearCloses, pyIn (str "N/A") t = false)
      ∧ (∀ t ∈ fallbackTrendStatements revMs profMs growMs, pyIn (str "N/A") t = false) :=
  ⟨yf_statements_no_NA info, india_statements_no_NA yearCloses,
   fallback_statements_no_NA revMs profMs growMs hvals hyears⟩

/-- Witness for C2 amended at a concrete snapshot, one close price, and one
regex match per pattern. -/
theorem trend_statements_na_filtered_witness :
    (∀ t ∈ yfTrendStatements
        ⟨.missing, .num 5000000000, .missing, .missing, .missing, .missing, .missing,
         .missing, .missing, .missing, some (str "buy")⟩,
        pyIn (str "N/A") t = false)
      ∧ (∀ t ∈ indiaTrendStatements [(2023, 123456)], pyIn (str "N/A") t = false)
      ∧ (∀ t ∈ fallbackTrendStatements [⟨[], str "5 million"⟩] [⟨[str "2023"], str "7"⟩] [],
          pyIn (str "N/A") t = false) :=
  trend_statements_na_filtered _ _ _ _ _ (by decide) (by decide)

-- ===== C10: the 'latest' pseudo-year bucket =====

theorem strGtB_irrefl : ∀ (l : List Char), strGtB l l = false := by
  intro l
  induction l with
  | nil => rfl
  | cons a as ih => simp [strGtB, ih]

theorem strGtB_asymm : ∀ {a b : List Char}, strGtB a b = true → strGtB b a = false := by
  intro a
  induction a with
  | nil =>
    intro b h
    cases b <;> simp [strGtB] at h ⊢
  | cons x xs ih =>
    intro b h
    cases b with
    | nil => simp [strGtB]
    | cons y ys =>
      simp only [strGtB] at h ⊢
      by_cases hxy : x == y
      · have hyx : y == x := by
          rw [beq_iff_eq] at hxy ⊢
          exact hxy.symm
        rw [if_pos hxy] at h
        rw [if_pos hyx]
        exact ih h
      · have hyx : ¬ (y == x) = true := by
          rw [beq_iff_eq] at hxy ⊢
          exact fun he => hxy he.symm
        rw [if_neg hxy] at h
        rw [if_neg hyx]
        simp only [decide_eq_true_eq] at h
        simp only [decide_eq_false_iff_not]
        omega

theorem perm_insertDesc (x : List Char) : ∀ (l : List (List Char)),
    List.Perm (insertDesc x l) (x :: l) := by
  intro l
  induction l with
  | nil => exact List.Perm.refl _
  | cons y ys ih =>
    simp only [insertDesc]
    split
    · exact List.Perm.refl _
    · exact (List.Perm.cons y ih).trans (List.Perm.swap x y ys)

theorem perm_sortDesc : ∀ (l : List (List Char)), List.Perm (sortDesc l) l := by
  intro l
  induction l with
  | nil => exact List.Perm.refl _
  | cons x xs ih => exact (perm_insertDesc x (sortDesc xs)).trans (List.Perm.cons x ih)

theorem sortDesc_head_dominant : ∀ {l : List (List Char)} {x : List Char},
    x ∈ l → (∀ y ∈ l, y ≠ x → strGtB x y = true) → ∃ t, sortDesc l = x :: t := by
  intro l
  induction l with
  | nil =>
    intro x hx _
    cases hx
  | cons a as ih =>
    intro x hx hdom
    by_cases hax : a = x
    · subst hax
      cases hs : sortDesc as with
      | nil => exact ⟨[], by simp [sortDesc, hs, insertDesc]⟩
      | cons b bs =>
        by_cases hba : b = a
        · subst hba
          refine ⟨insertDesc b bs, ?_⟩
          simp only [sortDesc, hs, insertDesc]
          rw [if_neg (by simp [strGtB_irrefl])]
        · have hb : b ∈ as := mem_sortDesc.mp (hs ▸ List.mem_cons_self _ _)
          have hgt : strGtB a b = true := hdom b (List.mem_cons_of_mem _ hb) hba
          refine ⟨b :: bs, ?_⟩
          simp only [sortDesc, hs, insertDesc]
          rw [if_pos hgt]
    · have hx2 : x ∈ as := by
        rcases List.mem_cons.mp hx with he | h
        · exact absurd he.symm hax
        · exact h
      obtain ⟨t, ht⟩ := ih hx2 (fun y hy hne => hdom y (List.mem_cons_of_mem _ hy) hne)
      have hgt : strGtB x a = true := hdom a (List.mem_cons_self _ _) hax
      have hng : strGtB a x = false := strGtB_asymm hgt
      refine ⟨insertDesc a t, ?_⟩
      simp only [sortDesc, ht, insertDesc]
      rw [if_neg (by simp [hng])]

theorem bucket_foldl_latest : ∀ (ms : List FinMatch) (b : List (List Char × List Char)),
    ((∃ m ∈ ms, m.nearbyYears = []) ∨ str "latest" ∈ b.map Prod.fst) →
    str "latest" ∈ (ms.foldl bucketStep b).map Prod.fst := by
  intro ms
  induction ms with
  | nil =>
    intro b h
    rcases h with ⟨m, hm, _⟩ | h
    · cases hm
    · exact h
  | cons m rest ih =>
    intro b h
    apply ih
    rcases h with ⟨m', hm', hy'⟩ | h
    · rcases List.mem_cons.mp hm' with rfl | hm'
      · right
        simp only [bucketStep, hy', List.head?_nil]
        exact pyDictSet_fst_self _ _ _
      · exact Or.inl ⟨m', hm', hy'⟩
    · right
      simp only [bucketStep]
      cases m.nearbyYears.head? <;> exact pyDictSet_fst_of_mem _ _ h

theorem combined_keys_cases (revMs profMs growMs : List FinMatch) (y : List Char)
    (h : y ∈ financialKeys revMs profMs growMs) :
    y = str "latest" ∨ ∃ m ∈ revMs ++ profMs ++ growMs, y ∈ m.nearbyYears := by
  have h' := List.mem_dedup.mp h
  simp only [List.mem_append] at h'
  rcases h' with (h' | h') | h'
  · rcases bucket_foldl_keys revMs [] y h' with h2 | h2 | ⟨m, hm, hy⟩
    · cases h2
    · exact Or.inl h2
    · exact Or.inr ⟨m, List.mem_append_left _ (List.mem_append_left _ hm), hy⟩
  · rcases bucket_foldl_keys profMs [] y h' with h2 | h2 | ⟨m, hm, hy⟩
    · cases h2
    · exact Or.inl h2
    · exact Or.inr ⟨m, List.mem_append_left _ (List.mem_append_right _ hm), hy⟩
  · rcases bucket_foldl_keys growMs [] y h' with h2 | h2 | ⟨m, hm, hy⟩
    · cases h2
    · exact Or.inl h2
    · exact Or.inr ⟨m, List.mem_append_right _ hm, hy⟩

theorem strGtB_latest_head2 {y : List Char} (h : y.head? = some '2') :
    strGtB (str "latest") y = true := by
  cases y with
  | nil => cases h
  | cons c ys =>
    injection h with h'
    subst h'
    rw [show str "latest" = 'l' :: str "atest" from rfl]
    simp only [strGtB]
    rw [if_neg (by decide)]
    decide

/-- C10: in the regex fallback, a matched value with no 4-digit year within
±20 characters is bucketed under the pseudo-year `'latest'`; `'latest'`
orders above every matched year string in the reverse string sort, so it
always occupies one of the at most 3 kept year slots, and when more than 3
distinct buckets exist a genuine year present in the buckets is displaced
out of the kept years. -/
theorem regex_fallback_latest_displaces
    (revMs profMs growMs : List FinMatch) (m₀ : FinMatch)
    (hm₀ : m₀ ∈ revMs) (hy₀ : m₀.nearbyYears = [])
    (hshape : ∀ m ∈ revMs ++ profMs ++ growMs, ∀ y ∈ m.nearbyYears, y.head? = some '2') :
    (∀ y ∈ financialKeys revMs profMs growMs,
        y ≠ str "latest" → strGtB (str "latest") y = true)
      ∧ str "latest" ∈ (extract_financials revMs profMs growMs).2
      ∧ (3 < (financialKeys revMs profMs growMs).length →
          ∃ y ∈ financialKeys revMs profMs growMs,
            y ≠ str "latest" ∧ y ∉ (extract_financials revMs profMs growMs).2) := by
  have hdom : ∀ y ∈ financialKeys revMs profMs growMs,
      y ≠ str "latest" → strGtB (str "latest") y = true := by
    intro y hy hne
    rcases combined_keys_cases revMs profMs growMs y hy with h | ⟨m, hm, hy2⟩
    · exact absurd h hne
    · exact strGtB_latest_head2 (hshape m hm y hy2)
  have hlatest : str "latest" ∈ financialKeys revMs profMs growMs := by
    apply List.mem_dedup.mpr
    apply List.mem_append_left
    apply List.mem_append_left
    exact bucket_foldl_latest revMs [] (Or.inl ⟨m₀, hm₀, hy₀⟩)
  obtain ⟨t, ht⟩ := sortDesc_head_dominant hlatest hdom
  have hyears_eq : (extract_financials revMs profMs growMs).2
      = (sortDesc (financialKeys revMs profMs growMs)).take 3 := by
    simp only [extract_financials, financialKeys] at *
    rw [if_neg ?_]
    rw [ht]
    simp
  refine ⟨hdom, ?_, ?_⟩
  · rw [hyears_eq, ht]
    simp [List.take_succ_cons]
  · intro hlen
    have hperm := perm_sortDesc (financialKeys revMs profMs growMs)
    have hlen2 : (sortDesc (financialKeys revMs profMs growMs)).length
        = (financialKeys revMs profMs growMs).length := hperm.length_eq
    have hnodup : (sortDesc (financialKeys revMs profMs growMs)).Nodup :=
      (hperm.nodup_iff).mpr (List.nodup_dedup _)
    rw [ht] at hlen2 hnodup
    rcases t with _ | ⟨t0, t⟩
    · simp at hlen2
      omega
    rcases t with _ | ⟨t1, t⟩
    · simp at hlen2
      omega
    rcases t with _ | ⟨t2, trest⟩
    · simp at hlen2
      omega
    obtain ⟨hn0, hnodup⟩ := List.nodup_cons.mp hnodup
    obtain ⟨hn1, hnodup⟩ := List.nodup_cons.mp hnodup
    obtain ⟨hn2, _⟩ := List.nodup_cons.mp hnodup
    have ht2lat : t2 ≠ str "latest" := by
      intro he
      exact hn0 (he ▸ List.mem_cons_of_mem _ (List.mem_cons_of_mem _ (List.mem_cons_self _ _)))
    have ht2t0 : t2 ≠ t0 := by
      intro he
      exact hn1 (he ▸ List.mem_cons_of_mem _ (List.mem_cons_self _ _))
    have ht2t1 : t2 ≠ t1 := by
      intro he
      exact hn2 (he ▸ List.mem_cons_self _ _)
    refine ⟨t2, ?_, ht2lat, ?_⟩
    · have hmem : t2 ∈ sortDesc (financialKeys revMs profMs growMs) := by
        rw [ht]
        simp
      exact mem_sortDesc.mp hmem
    · rw [hyears_eq, ht]
      have htake : (str "latest" :: t0 :: t1 :: t2 :: trest).take 3
          = [str "latest", t0, t1] := rfl
      rw [htake]
      intro hmem
      rcases List.mem_cons.mp hmem with he | hmem
      · exact ht2lat he
      rcases List.mem_cons.mp hmem with he | hmem
      · exact ht2t0 he
      rcases List.mem_cons.mp hmem with he | hmem
      · exact ht2t1 he
      · cases hmem

/-- Witness for C10 at one year-less revenue match and three distinct
bucketed years. -/
theorem regex_fallback_latest_displaces_witness :
    (∀ y ∈ financialKeys [⟨[], str "100"⟩, ⟨[str "2023"], str "6"⟩]
        [⟨[str "2022"], str "7"⟩] [⟨[str "2021"], str "8"⟩],
        y ≠ str "latest" → strGtB (str "latest") y = true)
      ∧ str "latest" ∈ (extract_financials [⟨[], str "100"⟩, ⟨[str "2023"], str "6"⟩]
          [⟨[str "2022"], str "7"⟩] [⟨[str "2021"], str "8"⟩]).2
      ∧ (3 < (financialKeys [⟨[], str "100"⟩, ⟨[str "2023"], str "6"⟩]
            [⟨[str "2022"], str "7"⟩] [⟨[str "2021"], str "8"⟩]).length →
          ∃ y ∈ financialKeys [⟨[], str "100"⟩, ⟨[str "2023"], str "6"⟩]
            [⟨[str "2022"], str "7"⟩] [⟨[str "2021"], str "8"⟩],
            y ≠ str "latest" ∧ y ∉ (extract_financials [⟨[], str "100"⟩, ⟨[str "2023"], str "6"⟩]
              [⟨[str "2022"], str "7"⟩] [⟨[str "2021"], str "8"⟩]).2) :=
  regex_fallback_latest_displaces _ _ _ ⟨[], str "100"⟩ (by decide) rfl (by decide)

end PrepAgent
